import Mathlib

/-!
# Verification of `waituntil` (siebenmann/waituntil)

A shallow embedding of `waituntil.go` and proofs about its two components:

* the time-specification parsing (`parseHHMM`, `parseTime` with the fixed
  list `specs` of calendar layouts), and
* the adaptive wait loop in `main` (the per-iteration sleep decision and the
  resulting iteration schedule under a stable clock).

Instants are modelled as integer seconds in a fixed local zone (the program
only ever produces whole-second targets); civil/calendar conversions follow
the proleptic Gregorian calendar exactly as Go's `time` package computes
them (`time.Date` normalisation, `Time.AddDate`, field accessors).
Durations inside the wait loop are modelled in integer nanoseconds, the
unit of Go's `time.Duration`.
-/

namespace Waituntil

/-- An absolute instant: whole seconds since 1970-01-01 00:00:00 in the
(fixed-offset) local zone. -/
abbrev Instant := Int

/-! ## Civil calendar arithmetic (what Go's `time.Date` computes)

`daysFromCivil`/`civilFromDays` are the standard proleptic-Gregorian
day-number conversions (era = 400 years = 146097 days); Go's `time`
package computes the same function via its `absDate`/`daysSinceEpoch`
internals. All divisions are by positive constants, where `Int`'s `/`
(Euclidean division) coincides with floor division, matching Go's
borrow-loop normalisation `norm`. -/

/-- Day number (days since 1970-01-01) of the civil date `y-m-d`;
`m` must already be normalised into `1..12`. -/
def daysFromCivil (y m d : Int) : Int :=
  let y1 := if m ≤ 2 then y - 1 else y
  let era := y1 / 400
  let yoe := y1 - era * 400
  let mp := (m + 9) % 12
  let doy := (153 * mp + 2) / 5 + d - 1
  let doe := yoe * 365 + yoe / 4 - yoe / 100 + doy
  era * 146097 + doe - 719468

/-- Civil date `(year, month, day)` of a day number (days since 1970-01-01). -/
def civilFromDays (z0 : Int) : Int × Int × Int :=
  let z := z0 + 719468
  let era := z / 146097
  let doe := z - era * 146097
  let yoe := (doe - doe / 1460 + doe / 36524 - doe / 146096) / 365
  let y := yoe + era * 400
  let doy := doe - (365 * yoe + yoe / 4 - yoe / 100)
  let mp := (5 * doy + 2) / 153
  let d := doy - (153 * mp + 2) / 5 + 1
  let m := mp + (if mp < 10 then 3 else -9)
  (y + (if m ≤ 2 then 1 else 0), m, d)

/-- Go's `time.Date(y, mo, d, h, mi, s, 0, loc)` for a fixed-offset zone:
the month is normalised into the year by floor division (Go's `norm`),
and day/hour/minute/second are plain offsets from the first of that
month, so out-of-range values overflow arithmetically exactly as in Go. -/
def goDate (y mo d h mi s : Int) : Instant :=
  let m0 := mo - 1
  let y1 := y + m0 / 12
  let m1 := m0 % 12 + 1
  (daysFromCivil y1 m1 1 + (d - 1)) * 86400 + h * 3600 + mi * 60 + s

/-- `(year, month, day)` of an instant (Go's `Time.Date()`). -/
def civilOf (t : Instant) : Int × Int × Int := civilFromDays (t / 86400)

/-- Go's `Time.Year()`. -/
def yearOf (t : Instant) : Int := (civilOf t).1

/-- Go's `Time.Month()` as its integer value `1..12`. -/
def monthOf (t : Instant) : Int := (civilOf t).2.1

/-- Go's `Time.Day()`. -/
def dayOf (t : Instant) : Int := (civilOf t).2.2

/-- Go's `Time.Hour()`. -/
def hourOf (t : Instant) : Int := t % 86400 / 3600

/-- Go's `Time.Minute()`. -/
def minuteOf (t : Instant) : Int := t % 3600 / 60

/-- Go's `Time.Second()`. -/
def secondOf (t : Instant) : Int := t % 60

/-- Go's `Time.AddDate(years, months, days)`: decompose into calendar date
and clock, add the deltas field-wise, and rebuild with `Date` (which
normalises, so overflowing days spill into the next month). -/
def addDate (t : Instant) (years months days : Int) : Instant :=
  let c := civilOf t
  goDate (c.1 + years) (c.2.1 + months) (c.2.2 + days)
    (hourOf t) (minuteOf t) (secondOf t)

/-! ## The `fmt.Sscanf` scan used by `parseHHMM`

`parseHHMM` scans its argument with `fmt.Sscanf(tspec, "%d:%d:%d", ...)`
and falls back to `"%d:%d"`. Go's `%d` verb skips leading white space,
accepts an optional sign and base-10 digits, bounds the value to `int64`,
and stops at the first non-digit; a literal `:` in the format must match
the input exactly; input remaining after the format is exhausted is
ignored (`Sscanf` reports no error for trailing text). -/

/-- Decimal digit test on a character. -/
def isDigitChar (c : Char) : Bool := '0' ≤ c && c ≤ '9'

/-- Numeric value of a decimal digit character. -/
def digitVal (c : Char) : Nat := c.toNat - '0'.toNat

/-- Skip the blank characters `%d` skips before a number. -/
def skipBlanks : List Char → List Char
  | ' ' :: rest => skipBlanks rest
  | '\t' :: rest => skipBlanks rest
  | l => l

/-- Read a maximal run of decimal digits into `acc`. -/
def readDigits : List Char → Nat → Nat × List Char
  | c :: rest, acc =>
      if isDigitChar c then readDigits rest (acc * 10 + digitVal c)
      else (acc, c :: rest)
  | [], acc => (acc, [])

/-- At least one decimal digit, maximal munch. -/
def scanDigits : List Char → Option (Nat × List Char)
  | c :: rest => if isDigitChar c then some (readDigits rest (digitVal c)) else none
  | [] => none

/-- Go's `%d` verb: skip blanks, optional sign, digits, `int64` bound. -/
def scanIntVerb (l : List Char) : Option (Int × List Char) :=
  match skipBlanks l with
  | '-' :: rest =>
      (scanDigits rest).bind fun p =>
        if p.1 ≤ 2 ^ 63 then some (-(p.1 : Int), p.2) else none
  | '+' :: rest =>
      (scanDigits rest).bind fun p =>
        if p.1 < 2 ^ 63 then some ((p.1 : Int), p.2) else none
  | l1 =>
      (scanDigits l1).bind fun p =>
        if p.1 < 2 ^ 63 then some ((p.1 : Int), p.2) else none

/-- A literal format character: must match the next input character. -/
def expectChar (c : Char) : List Char → Option (List Char)
  | x :: rest => if x = c then some rest else none
  | [] => none

/-- `fmt.Sscanf(s, "%d:%d", &hr, &min)`: trailing input is ignored. -/
def sscanfHM (s : String) : Option (Int × Int) :=
  (scanIntVerb s.toList).bind fun p1 =>
  (expectChar ':' p1.2).bind fun r1 =>
  (scanIntVerb r1).bind fun p2 =>
  some (p1.1, p2.1)

/-- `fmt.Sscanf(s, "%d:%d:%d", &hr, &min, &secs)`: trailing input ignored. -/
def sscanfHMS (s : String) : Option (Int × Int × Int) :=
  (scanIntVerb s.toList).bind fun p1 =>
  (expectChar ':' p1.2).bind fun r1 =>
  (scanIntVerb r1).bind fun p2 =>
  (expectChar ':' p2.2).bind fun r2 =>
  (scanIntVerb r2).bind fun p3 =>
  some (p1.1, p2.1, p3.1)

/-- The scan phase of `parseHHMM`: try `"%d:%d:%d"`, and on failure
`"%d:%d"` with `secs = 0` (the source zeroes `secs` before the retry). -/
def scanClock (s : String) : Option (Int × Int × Int) :=
  match sscanfHMS s with
  | some v => some v
  | none =>
      match sscanfHM s with
      | some p => some (p.1, p.2, 0)
      | none => none

/-- `parseHHMM` from `waituntil.go`: scan `HH:MM[:SS]`, build today's date
with that time of day via `time.Date`, return it unchanged in the
same-minute special case, else push a past target forward by 24 hours.
`none` models the returned scan error. -/
def parseHHMM (now : Instant) (tspec : String) : Option Instant :=
  match scanClock tspec with
  | none => none
  | some (hr, mn, secs) =>
      let tgt := goDate (yearOf now) (monthOf now) (dayOf now) hr mn secs
      if hourOf now = hr ∧ minuteOf now = mn ∧ secs ≤ secondOf now then
        some tgt
      else if tgt < now then some (tgt + 86400)
      else some tgt

/-! ## `time.ParseInLocation` for the layouts in `specs`

The nine layouts use only the reference-time elements `2006` (four-digit
year), `01` (two-digit month), `02` (two-digit day), `15` (one- or
two-digit hour), `04`/`05` (two-digit minute/second) and the literals
`-`, ` `, `:`. Go's parser requires the whole value to be consumed,
checks hour `< 24` and minute/second `< 60` at the matching step, and
afterwards checks the month is `1..12` and the day fits the month (the
day check uses the parsed year, which defaults to year 0 — a leap year). -/

/-- One element of a layout string. -/
inductive LTok where
  | year4 : LTok
  | month2 : LTok
  | day2 : LTok
  | hourTok : LTok
  | min2 : LTok
  | sec2 : LTok
  | litc : Char → LTok
deriving DecidableEq

/-- The calendar fields being collected, with Go's `Parse` defaults
(year 0, January 1, midnight). -/
structure Fields where
  year : Nat := 0
  month : Nat := 1
  day : Nat := 1
  hour : Nat := 0
  minute : Nat := 0
  second : Nat := 0
deriving DecidableEq

/-- Exactly two digits (Go's `getnum` with `fixed`). -/
def getnum2f : List Char → Option (Nat × List Char)
  | a :: b :: rest =>
      if isDigitChar a && isDigitChar b then
        some (digitVal a * 10 + digitVal b, rest)
      else none
  | _ => none

/-- One or two digits (Go's `getnum` without `fixed`, used for hour `15`). -/
def getnum2 : List Char → Option (Nat × List Char)
  | a :: b :: rest =>
      if isDigitChar a then
        if isDigitChar b then some (digitVal a * 10 + digitVal b, rest)
        else some (digitVal a, b :: rest)
      else none
  | [a] => if isDigitChar a then some (digitVal a, []) else none
  | [] => none

/-- Exactly four digits (Go's `stdLongYear`). -/
def getnum4 : List Char → Option (Nat × List Char)
  | a :: b :: c :: d :: rest =>
      if isDigitChar a && isDigitChar b && isDigitChar c && isDigitChar d then
        some (digitVal a * 1000 + digitVal b * 100 + digitVal c * 10 + digitVal d, rest)
      else none
  | _ => none

/-- Match one layout element against the input, updating the fields;
hour/minute/second range errors fail here as in Go's matching loop. -/
def runTok (t : LTok) (l : List Char) (f : Fields) : Option (Fields × List Char) :=
  match t with
  | .year4 => (getnum4 l).map fun p => ({ f with year := p.1 }, p.2)
  | .month2 => (getnum2f l).map fun p => ({ f with month := p.1 }, p.2)
  | .day2 => (getnum2f l).map fun p => ({ f with day := p.1 }, p.2)
  | .hourTok =>
      (getnum2 l).bind fun p =>
        if p.1 < 24 then some ({ f with hour := p.1 }, p.2) else none
  | .min2 =>
      (getnum2f l).bind fun p =>
        if p.1 < 60 then some ({ f with minute := p.1 }, p.2) else none
  | .sec2 =>
      (getnum2f l).bind fun p =>
        if p.1 < 60 then some ({ f with second := p.1 }, p.2) else none
  | .litc c => (expectChar c l).map fun r => (f, r)

/-- Match a whole layout against the input. -/
def runToks : List LTok → List Char → Fields → Option (Fields × List Char)
  | [], l, f => some (f, l)
  | t :: ts, l, f => (runTok t l f).bind fun p => runToks ts p.2 p.1

/-- Leap year as Go's `isLeap`. -/
def isLeap (y : Nat) : Bool := y % 4 == 0 && (y % 100 != 0 || y % 400 == 0)

/-- Days in a month as Go's `daysIn` (month assumed `1..12`). -/
def daysIn (m y : Nat) : Nat :=
  if m = 2 then (if isLeap y then 29 else 28)
  else if m = 4 ∨ m = 6 ∨ m = 9 ∨ m = 11 then 30
  else 31

/-- `time.ParseInLocation(layout, s, time.Local)` for our layouts: the
layout must consume the entire value, the month must be `1..12`, and the
day must exist in the parsed month of the parsed (default 0) year. On
success the instant is built exactly as `time.Date` builds it. -/
def parseInLocation (toks : List LTok) (s : String) : Option Instant :=
  (runToks toks s.toList {}).bind fun p =>
    if p.2 = [] ∧ 1 ≤ p.1.month ∧ p.1.month ≤ 12 ∧
        1 ≤ p.1.day ∧ p.1.day ≤ daysIn p.1.month p.1.year then
      some (goDate p.1.year p.1.month p.1.day p.1.hour p.1.minute p.1.second)
    else none

/-- Completeness markers from the source: `full = 0`, `noyear = 1`,
`nomonth = 2`; later values imply everything before them. -/
def full : Nat := 0

/-- The parsed layout lacks the year. -/
def noyear : Nat := 1

/-- The parsed layout lacks the year and the month. -/
def nomonth : Nat := 2

/-- A time specification: a layout and what it lacks (`tSpec` in the source). -/
structure tSpec where
  toks : List LTok
  lacks : Nat

/-- Layout `"2006-01-02 15:04"`. -/
def layoutFullHM : List LTok :=
  [.year4, .litc '-', .month2, .litc '-', .day2, .litc ' ',
   .hourTok, .litc ':', .min2]

/-- Layout `"2006-01-02 15:04:05"`. -/
def layoutFullHMS : List LTok := layoutFullHM ++ [.litc ':', .sec2]

/-- Layout `"2006-01-02"`. -/
def layoutFullDate : List LTok := [.year4, .litc '-', .month2, .litc '-', .day2]

/-- Layout `"01-02 15:04"`. -/
def layoutMDHM : List LTok :=
  [.month2, .litc '-', .day2, .litc ' ', .hourTok, .litc ':', .min2]

/-- Layout `"01-02 15:04:05"`. -/
def layoutMDHMS : List LTok := layoutMDHM ++ [.litc ':', .sec2]

/-- Layout `"01-02"`. -/
def layoutMD : List LTok := [.month2, .litc '-', .day2]

/-- Layout `"02 15:04"`. -/
def layoutDHM : List LTok := [.day2, .litc ' ', .hourTok, .litc ':', .min2]

/-- Layout `"02 15:04:05"`. -/
def layoutDHMS : List LTok := layoutDHM ++ [.litc ':', .sec2]

/-- Layout `"02"`. -/
def layoutD : List LTok := [.day2]

/-- The ordered list of time specifications the full parse accepts
(`specs` in the source, same order). -/
def specs : List tSpec :=
  [⟨layoutFullHM, full⟩, ⟨layoutFullHMS, full⟩, ⟨layoutFullDate, full⟩,
   ⟨layoutMDHM, noyear⟩, ⟨layoutMDHMS, noyear⟩, ⟨layoutMD, noyear⟩,
   ⟨layoutDHM, nomonth⟩, ⟨layoutDHMS, nomonth⟩, ⟨layoutD, nomonth⟩]

/-- The completion the source applies to a winning pattern: add the
current year when the layout lacks the year, and additionally shift by
`now.Month() - 1` months when it also lacks the month. -/
def applyCompletion (now : Instant) (lacks : Nat) (t : Instant) : Instant :=
  let t1 := if noyear ≤ lacks then addDate t (yearOf now) 0 0 else t
  if nomonth ≤ lacks then addDate t1 0 (monthOf now - 1) 0 else t1

/-- The full-parse loop of `parseTime`: try each spec in order, the first
layout that parses wins and receives its completion. -/
def tryCalSpecs (now : Instant) (s : String) : List tSpec → Option Instant
  | [] => none
  | sp :: rest =>
      match parseInLocation sp.toks s with
      | some t => some (applyCompletion now sp.lacks t)
      | none => tryCalSpecs now s rest

/-- The calendar-date path of `parseTime` over the full `specs` list. -/
def calendarParse (now : Instant) (s : String) : Option Instant :=
  tryCalSpecs now s specs

/-- `parseTime` from `waituntil.go`: the `HH:MM[:SS]` fast path, then the
ordered calendar layouts; `none` models the single "cannot parse time
argument" error. -/
def parseTime (now : Instant) (s : String) : Option Instant :=
  match parseHHMM now s with
  | some t => some t
  | none => calendarParse now s

/-! ## The adaptive wait loop of `main`

Durations are Go `time.Duration` values: integer nanoseconds. One loop
iteration samples `now`, returns when `now.After(tgt)` or when the
remaining duration is under one second, and otherwise sleeps for the
remaining duration capped as in the source. `rem` below is
`tgt.Sub(now)`, so `now.After(tgt)` is `rem < 0`. -/

/-- `time.Second` in nanoseconds. -/
def timeSecond : Int := 1000000000

/-- `time.Minute` in nanoseconds. -/
def timeMinute : Int := 60000000000

/-- `time.Hour` in nanoseconds. -/
def timeHour : Int := 3600000000000

/-- One iteration of the wait loop in `main`, as a function of the
remaining duration `rem = tgt.Sub(now)`: `none` means the loop returns
without sleeping, `some d` means it sleeps for `d` nanoseconds. In the
`rem / 2` branch `rem` is positive, where `Int` division agrees with
Go's `int64` division. -/
def sleepDecision (rem : Int) : Option Int :=
  if rem < 0 then none
  else if rem < timeSecond then none
  else if 2 * timeHour < rem then some timeHour
  else if timeMinute < rem then some (rem / 2)
  else some rem

/-- When the loop decides to sleep, the remaining duration was at least a
second and the sleep is positive and no longer than the remaining time. -/
theorem sleepDecision_some {rem d : Int} (h : sleepDecision rem = some d) :
    timeSecond ≤ rem ∧ 0 < d ∧ d ≤ rem := by
  simp only [sleepDecision, timeSecond, timeMinute, timeHour] at h ⊢
  split_ifs at h
  all_goals injection h with h
  all_goals omega

/-- The number of sleeps the loop performs under a stable clock (each
sleep of duration `d` advances the clock by exactly `d`, so the next
remaining duration is `rem - d`). -/
def sleepsUntil (rem : Int) : Nat :=
  match h : sleepDecision rem with
  | none => 0
  | some d => 1 + sleepsUntil (rem - d)
termination_by rem.toNat
decreasing_by
  have hs := sleepDecision_some h
  have h1 : (0:Int) < timeSecond := by decide
  omega

/-- Fuel-indexed run of the wait loop under a stable clock: `true` when
the loop returns within `fuel` iterations. -/
def runLoop : Nat → Int → Bool
  | 0, _ => false
  | fuel + 1, rem =>
      match sleepDecision rem with
      | none => true
      | some d => runLoop fuel (rem - d)

/-! ## Facts about the wait loop -/

/-- Unfolding `sleepsUntil` when the loop decides not to sleep. -/
theorem sleepsUntil_none {rem : Int} (h : sleepDecision rem = none) :
    sleepsUntil rem = 0 := by
  rw [sleepsUntil.eq_def]
  split
  · rfl
  · rename_i d2 hd2
    rw [h] at hd2
    exact Option.noConfusion hd2

/-- Unfolding `sleepsUntil` when the loop decides to sleep for `d`. -/
theorem sleepsUntil_some {rem d : Int} (h : sleepDecision rem = some d) :
    sleepsUntil rem = 1 + sleepsUntil (rem - d) := by
  rw [sleepsUntil.eq_def]
  split
  · rename_i hd2
    rw [h] at hd2
    exact Option.noConfusion hd2
  · rename_i d2 hd2
    rw [h] at hd2
    injection hd2 with hd2
    rw [hd2]

/-- With a remaining time of more than two hours the loop sleeps one hour. -/
theorem sleepDecision_top {rem : Int} (h : 2 * timeHour < rem) :
    sleepDecision rem = some timeHour := by
  simp only [sleepDecision, timeSecond, timeMinute, timeHour] at h ⊢
  split_ifs <;> first | rfl | omega

/-- Halving phase: a remaining time of at most `timeMinute * 2 ^ m` (and at
most two hours) is finished within `m + 1` sleeps. -/
theorem sleepsUntil_halving (m : Nat) : ∀ rem : Int,
    rem ≤ 2 * timeHour → rem ≤ timeMinute * 2 ^ m → sleepsUntil rem ≤ m + 1 := by
  induction m with
  | zero =>
      intro rem _ hm
      by_cases hnone : sleepDecision rem = none
      · simp [sleepsUntil_none hnone]
      · obtain ⟨d, hd⟩ := Option.ne_none_iff_exists'.mp hnone
        have hs := sleepDecision_some hd
        have hdrem : d = rem := by
          simp only [sleepDecision, timeSecond, timeMinute, timeHour] at hd hm ⊢
          split_ifs at hd <;> injection hd with hd <;> omega
        have hzero : sleepDecision (rem - d) = none := by
          rw [hdrem, sub_self]
          decide
        rw [sleepsUntil_some hd, sleepsUntil_none hzero]
  | succ m ih =>
      intro rem h2h hm
      by_cases hsmall : rem ≤ timeMinute * 2 ^ m
      · exact le_trans (ih rem h2h hsmall) (by omega)
      · push_neg at hsmall
        have hmin : timeMinute < rem := by
          have hp : (0:Int) < 2 ^ m := by positivity
          have h1 : timeMinute ≤ timeMinute * 2 ^ m :=
            le_mul_of_one_le_right (by norm_num [timeMinute]) (by omega)
          omega
        have hd : sleepDecision rem = some (rem / 2) := by
          simp only [sleepDecision, timeSecond, timeMinute, timeHour] at hmin h2h ⊢
          split_ifs <;> first | rfl | omega
        have hnext2h : rem - rem / 2 ≤ 2 * timeHour := by
          simp only [timeMinute, timeHour] at *
          omega
        have hnextm : rem - rem / 2 ≤ timeMinute * 2 ^ m := by
          have hpow : timeMinute * 2 ^ (m + 1) = 2 * (timeMinute * 2 ^ m) := by ring
          rw [hpow] at hm
          omega
        rw [sleepsUntil_some hd]
        have := ih (rem - rem / 2) hnext2h hnextm
        omega

/-- Any remaining time of at most two hours is finished within 8 sleeps. -/
theorem sleepsUntil_le_two_hours {rem : Int} (h : rem ≤ 2 * timeHour) :
    sleepsUntil rem ≤ 8 := by
  have := sleepsUntil_halving 7 rem h
    (by simp only [timeMinute, timeHour] at h ⊢; omega)
  omega

/-- Upper bound on the sleep count: the hour-capped phase is linear in the
remaining time, the rest takes a bounded number of sleeps. -/
theorem sleepsUntil_le (rem : Int) :
    sleepsUntil rem ≤ rem.toNat / 3600000000000 + 8 := by
  induction rem using sleepsUntil.induct with
  | case1 rem hnone => simp [sleepsUntil_none hnone]
  | case2 rem d hd ih =>
      by_cases h2h : rem ≤ 2 * timeHour
      · exact le_trans (sleepsUntil_le_two_hours h2h) (by omega)
      · push_neg at h2h
        have hH : d = timeHour := by
          rw [sleepDecision_top h2h] at hd
          injection hd with hd
          omega
        rw [sleepsUntil_some hd, hH]
        rw [hH] at ih
        simp only [timeHour] at *
        omega

/-- Lower bound on the sleep count: the loop must spend one sleep per hour
of remaining time above two hours. -/
theorem sleepsUntil_ge (rem : Int) :
    rem.toNat / 3600000000000 ≤ sleepsUntil rem + 2 := by
  induction rem using sleepsUntil.induct with
  | case1 rem hnone =>
      have : ¬ timeSecond ≤ rem := by
        intro hge
        simp only [sleepDecision, timeSecond, timeMinute, timeHour] at hnone hge
        split_ifs at hnone <;> omega
      simp only [timeSecond] at this
      omega
  | case2 rem d hd ih =>
      by_cases h2h : rem ≤ 2 * timeHour
      · simp only [timeHour] at h2h
        omega
      · push_neg at h2h
        have hH : d = timeHour := by
          rw [sleepDecision_top h2h] at hd
          injection hd with hd
          omega
        rw [sleepsUntil_some hd, hH]
        rw [hH] at ih
        simp only [timeHour] at *
        omega

/-- The loop reaches its return statement with fuel `sleepsUntil rem + 1`. -/
theorem runLoop_true (rem : Int) : runLoop (sleepsUntil rem + 1) rem = true := by
  induction rem using sleepsUntil.induct with
  | case1 rem hnone =>
      rw [sleepsUntil_none hnone]
      simp [runLoop, hnone]
  | case2 rem d hd ih =>
      rw [sleepsUntil_some hd]
      have harr : 1 + sleepsUntil (rem - d) + 1 = (sleepsUntil (rem - d) + 1) + 1 := by
        omega
      rw [harr]
      simp only [runLoop, hd]
      exact ih

/-! ## The claims about the wait loop -/

/-- C1: in every iteration of the wait loop that decides to sleep (the
remaining duration is at least one second), the chosen sleep duration is
exactly one hour when more than two hours remain, half the remaining
duration when more than one minute but at most two hours remain, and the
full remaining duration when at most one minute remains. -/
theorem claim1_sleep_duration_schedule (rem : Int) (h : timeSecond ≤ rem) :
    (2 * timeHour < rem → sleepDecision rem = some timeHour) ∧
    (timeMinute < rem ∧ rem ≤ 2 * timeHour → sleepDecision rem = some (rem / 2)) ∧
    (rem ≤ timeMinute → sleepDecision rem = some rem) := by
  refine ⟨fun hc => ?_, fun hc => ?_, fun hc => ?_⟩ <;>
    · simp only [sleepDecision, timeSecond, timeMinute, timeHour] at *
      split_ifs <;> first | rfl | omega

/-- Witness for C1: the three schedule branches at remaining times of
three hours, ninety minutes and thirty seconds. -/
theorem claim1_sleep_duration_schedule_w :
    sleepDecision (3 * timeHour) = some timeHour ∧
    sleepDecision (90 * timeMinute) = some (90 * timeMinute / 2) ∧
    sleepDecision (30 * timeSecond) = some (30 * timeSecond) :=
  ⟨(claim1_sleep_duration_schedule (3 * timeHour) (by decide)).1 (by decide),
   (claim1_sleep_duration_schedule (90 * timeMinute) (by decide)).2.1 (by decide),
   (claim1_sleep_duration_schedule (30 * timeSecond) (by decide)).2.2 (by decide)⟩

/-- C2: an iteration of the wait loop terminates immediately without
sleeping exactly when the freshly sampled `now` is at or after the target
or the remaining duration `tgt - now` is under one second; otherwise it
sleeps a strictly positive duration of at most one hour. After a backward
clock jump the freshly recomputed remaining duration is strictly larger,
and the sleep is still positive and bounded. -/
theorem claim2_iteration_classification (tgt sampled : Int) :
    (sleepDecision (tgt - sampled) = none ↔
      tgt ≤ sampled ∨ tgt - sampled < timeSecond) ∧
    (∀ d, sleepDecision (tgt - sampled) = some d → 0 < d ∧ d ≤ timeHour) ∧
    (∀ earlier, earlier < sampled → tgt - sampled < tgt - earlier) := by
  refine ⟨?_, fun d hd => ?_, fun earlier he => by omega⟩
  · simp only [sleepDecision, timeSecond, timeMinute, timeHour]
    split_ifs <;> simp <;> omega
  · simp only [sleepDecision, timeSecond, timeMinute, timeHour] at hd ⊢
    split_ifs at hd <;> injection hd with hd <;> omega

/-- Witness for C2: a 700ms remaining duration terminates without a
sleep; a two-hour remaining duration sleeps a positive duration of at
most an hour; a backward jump of the sample enlarges the remaining. -/
theorem claim2_iteration_classification_w :
    sleepDecision ((700000000 : Int) - 0) = none ∧
    (0 < ((2 * timeHour : Int) - 0) / 2 ∧ ((2 * timeHour : Int) - 0) / 2 ≤ timeHour) ∧
    (2 * timeHour : Int) - 0 < 2 * timeHour - (-(3 * timeHour)) :=
  ⟨(claim2_iteration_classification 700000000 0).1.mpr (by decide),
   (claim2_iteration_classification (2 * timeHour) 0).2.1 _ (by decide),
   (claim2_iteration_classification (2 * timeHour) 0).2.2 (-(3 * timeHour)) (by decide)⟩

/-- C3 as stated is false: the sleep-iteration count of `WaitUntil` under
a stable clock is not proportional to `log2(T / 1 minute)` — because of
the one-hour cap it grows linearly in `T`, so no constant of
proportionality works for all targets. -/
theorem claim3_counterexample :
    ¬ ∃ c : Nat, ∀ T : Nat,
      sleepsUntil (T : Int) ≤ c * Nat.log 2 (T / 60000000000) := by
  rintro ⟨c, hc⟩
  set k := 8 * c + 8 with hk
  have hT := hc (3600000000000 * 2 ^ k)
  have hdiv : (3600000000000 * 2 ^ k) / 60000000000 = 60 * 2 ^ k := by
    have : (3600000000000 : Nat) * 2 ^ k = 60000000000 * (60 * 2 ^ k) := by ring
    rw [this]
    exact Nat.mul_div_cancel_left _ (by norm_num)
  have h64 : (2:Nat) ^ (k + 6) = 64 * 2 ^ k := by
    rw [pow_add, mul_comm]
    norm_num
  have hp : (0:Nat) < 2 ^ k := by positivity
  have hlt : 60 * 2 ^ k < 2 ^ (k + 6) := by
    rw [h64]
    omega
  have hlog : Nat.log 2 (60 * 2 ^ k) ≤ k + 5 := by
    have := Nat.log_lt_of_lt_pow (by positivity) hlt
    omega
  have hlow := sleepsUntil_ge ((3600000000000 * 2 ^ k : Nat) : Int)
  rw [Int.toNat_natCast] at hlow
  have hdivH : (3600000000000 * 2 ^ k) / 3600000000000 = 2 ^ k :=
    Nat.mul_div_cancel_left _ (by norm_num)
  rw [hdivH] at hlow
  rw [hdiv] at hT
  have hclog : c * Nat.log 2 (60 * 2 ^ k) ≤ c * (k + 5) :=
    Nat.mul_le_mul_left c hlog
  have hbound : 2 ^ k ≤ c * (k + 5) + 2 :=
    calc 2 ^ k ≤ sleepsUntil ((3600000000000 * 2 ^ k : Nat) : Int) + 2 := hlow
      _ ≤ c * Nat.log 2 (60 * 2 ^ k) + 2 := Nat.add_le_add_right hT 2
      _ ≤ c * (k + 5) + 2 := Nat.add_le_add_right hclog 2
  have hpow : (4 * c + 4) ^ 2 < 2 ^ k := by
    have h1 : 4 * c + 4 < 2 ^ (4 * c + 4) := Nat.lt_two_pow _
    calc (4 * c + 4) ^ 2 < (2 ^ (4 * c + 4)) ^ 2 :=
          Nat.pow_lt_pow_left h1 (by norm_num)
      _ = 2 ^ k := by
          rw [← pow_mul]
          congr 1
          omega
  have hfin : c * (k + 5) + 2 < (4 * c + 4) ^ 2 := by
    rw [hk]
    nlinarith
  exact absurd (lt_of_le_of_lt hbound (lt_trans hfin hpow)) (lt_irrefl _)

/-- C3 amended: under a stable clock (each sleep of duration `d` advances
the clock by exactly `d`) the wait loop always terminates — it reaches
its return statement within `sleepsUntil T + 1` iterations — and the
number of sleeps for a target `T` nanoseconds ahead is at most
`T / 1 hour + 8`: linear in `T` because of the one-hour cap, with the
halving schedule contributing only a bounded tail below two hours. -/
theorem claim3_amended_terminates_linear (T : Nat) :
    runLoop (sleepsUntil (T : Int) + 1) (T : Int) = true ∧
    sleepsUntil (T : Int) ≤ T / 3600000000000 + 8 := by
  refine ⟨runLoop_true _, ?_⟩
  have h := sleepsUntil_le ((T : Nat) : Int)
  rwa [Int.toNat_natCast] at h

/-! ## Facts about the parser -/

/-- The fast path fails exactly when neither `Sscanf` format scans. -/
theorem parseHHMM_none_iff (now : Instant) (s : String) :
    parseHHMM now s = none ↔ scanClock s = none := by
  unfold parseHHMM
  cases h : scanClock s with
  | none => simp
  | some v =>
      obtain ⟨hr, mn, sc⟩ := v
      simp only [Option.some.injEq]
      split_ifs <;> simp

/-- A successful three-number scan restricts to a successful two-number
scan of the same text (the two formats share their first three steps). -/
theorem sscanfHM_of_HMS {s : String} {v : Int × Int × Int}
    (h : sscanfHMS s = some v) : sscanfHM s = some (v.1, v.2.1) := by
  unfold sscanfHMS at h
  unfold sscanfHM
  cases h1 : scanIntVerb s.toList with
  | none => rw [h1] at h; simp at h
  | some p1 =>
      rw [h1] at h
      simp only [Option.some_bind] at h ⊢
      cases h2 : expectChar ':' p1.2 with
      | none => rw [h2] at h; simp at h
      | some r1 =>
          rw [h2] at h
          simp only [Option.some_bind] at h ⊢
          cases h3 : scanIntVerb r1 with
          | none => rw [h3] at h; simp at h
          | some p2 =>
              rw [h3] at h
              simp only [Option.some_bind] at h ⊢
              cases h4 : expectChar ':' p2.2 with
              | none => rw [h4] at h; simp at h
              | some r2 =>
                  rw [h4] at h
                  simp only [Option.some_bind] at h
                  cases h5 : scanIntVerb r2 with
                  | none => rw [h5] at h; simp at h
                  | some p3 =>
                      rw [h5] at h
                      simp only [Option.some_bind, Option.some.injEq] at h
                      rw [← h]

/-- The composite scan succeeds exactly when the two-number scan does. -/
theorem scanClock_isSome_iff (s : String) :
    (scanClock s).isSome = (sscanfHM s).isSome := by
  unfold scanClock
  cases h3 : sscanfHMS s with
  | some v => rw [sscanfHM_of_HMS h3]; rfl
  | none =>
      cases h2 : sscanfHM s with
      | some p => simp
      | none => simp

/-- The two halves of `parseTime`: when the fast path failed, the result
is the calendar-date path's. -/
theorem parseTime_of_fast_none {now : Instant} {s : String}
    (h : parseHHMM now s = none) : parseTime now s = calendarParse now s := by
  unfold parseTime
  rw [h]

/-- Claim C4 as stated is false at concrete inputs: the fast path accepts
`"99:99"` (no 0–23 hour restriction — `fmt.Sscanf` with `%d` performs no
range check) and `"12:34 junk"` (trailing text after the scanned numbers
is ignored, not rejected). -/
theorem claim4_counterexample :
    (parseHHMM 0 "99:99").isSome = true ∧
    (parseHHMM 0 "12:34 junk").isSome = true := by
  constructor <;> decide

/-- C4 amended: the clock-time fast path succeeds exactly on the texts
whose prefix scans as `%d:%d` — integers possibly signed and of any
magnitude that fits `int64`, no 0–23 hour restriction, arbitrary trailing
text ignored; on every other text it fails without side effects and
`parseTime` hands the text to the calendar-date pattern list. -/
theorem claim4_amended_fast_path_domain (now : Instant) (s : String) :
    ((parseHHMM now s).isSome = (sscanfHM s).isSome) ∧
    (parseHHMM now s = none → parseTime now s = calendarParse now s) := by
  refine ⟨?_, parseTime_of_fast_none⟩
  rw [← scanClock_isSome_iff]
  unfold parseHHMM
  cases h : scanClock s with
  | none => rfl
  | some v =>
      obtain ⟨hr, mn, sc⟩ := v
      simp only [Option.isSome_some]
      split_ifs <;> rfl

/-- Witness for C4's amended theorem: at `"xx"` (which neither format
scans) the fast path fails and parsing proceeds to the calendar list. -/
theorem claim4_amended_fast_path_domain_w :
    parseTime 0 "xx" = calendarParse 0 "xx" :=
  (claim4_amended_fast_path_domain 0 "xx").2 (by decide)

/-- C5: for a clock-time input whose hour and minute equal the current
instant's and whose seconds field (zero when omitted, as `scanClock`
records) is at most the current instant's seconds, `parseTime` returns
today's date combined with the given time of day unchanged — no 24-hour
roll-forward. -/
theorem claim5_same_minute_is_now (now : Instant) (s : String)
    (hr mn sc : Int) (hscan : scanClock s = some (hr, mn, sc))
    (hh : hourOf now = hr) (hm : minuteOf now = mn)
    (hs : sc ≤ secondOf now) :
    parseTime now s =
      some (goDate (yearOf now) (monthOf now) (dayOf now) hr mn sc) := by
  have hfast : parseHHMM now s =
      some (goDate (yearOf now) (monthOf now) (dayOf now) hr mn sc) := by
    unfold parseHHMM
    rw [hscan]
    simp only [if_pos (And.intro hh (And.intro hm hs))]
  unfold parseTime
  rw [hfast]

/-- Witness for C5: at 17:01:33, the input `"17:01"` resolves to today's
17:01:00 — treated as "right now", not rolled into tomorrow. -/
theorem claim5_same_minute_is_now_w :
    parseTime (goDate 2024 5 10 17 1 33) "17:01" =
      some (goDate (yearOf (goDate 2024 5 10 17 1 33))
        (monthOf (goDate 2024 5 10 17 1 33))
        (dayOf (goDate 2024 5 10 17 1 33)) 17 1 0) :=
  claim5_same_minute_is_now (goDate 2024 5 10 17 1 33) "17:01" 17 1 0
    (by decide) (by decide) (by decide) (by decide)

/-- C6: for a clock-time input outside the same-minute special case, a
candidate (today's date with the given time of day) strictly before `now`
comes back pushed forward by exactly 24 hours of wall-clock duration,
and a candidate at or after `now` comes back unchanged. -/
theorem claim6_rollforward (now : Instant) (s : String)
    (hr mn sc : Int) (hscan : scanClock s = some (hr, mn, sc))
    (hns : ¬(hourOf now = hr ∧ minuteOf now = mn ∧ sc ≤ secondOf now)) :
    (goDate (yearOf now) (monthOf now) (dayOf now) hr mn sc < now →
      parseTime now s =
        some (goDate (yearOf now) (monthOf now) (dayOf now) hr mn sc + 86400)) ∧
    (now ≤ goDate (yearOf now) (monthOf now) (dayOf now) hr mn sc →
      parseTime now s =
        some (goDate (yearOf now) (monthOf now) (dayOf now) hr mn sc)) := by
  constructor <;> intro hcmp <;>
    · unfold parseTime parseHHMM
      rw [hscan]
      simp only [if_neg hns]
      first
        | rw [if_pos hcmp]
        | rw [if_neg (not_lt.mpr hcmp)]

/-- Witness for C6: with now at 14:00:00, `"08:00"` rolls forward to
tomorrow's 08:00 (candidate + 24h), and `"15:00"` stays today's 15:00. -/
theorem claim6_rollforward_w :
    parseTime (goDate 2024 5 10 14 0 0) "08:00" =
      some (goDate (yearOf (goDate 2024 5 10 14 0 0))
        (monthOf (goDate 2024 5 10 14 0 0))
        (dayOf (goDate 2024 5 10 14 0 0)) 8 0 0 + 86400) ∧
    parseTime (goDate 2024 5 10 14 0 0) "15:00" =
      some (goDate (yearOf (goDate 2024 5 10 14 0 0))
        (monthOf (goDate 2024 5 10 14 0 0))
        (dayOf (goDate 2024 5 10 14 0 0)) 15 0 0) :=
  ⟨(claim6_rollforward (goDate 2024 5 10 14 0 0) "08:00" 8 0 0
      (by decide) (by decide)).1 (by decide),
   (claim6_rollforward (goDate 2024 5 10 14 0 0) "15:00" 15 0 0
      (by decide) (by decide)).2 (by decide)⟩

/-- The calendar-date loop fails exactly when every listed layout fails. -/
theorem tryCalSpecs_none_iff (now : Instant) (s : String) (L : List tSpec) :
    tryCalSpecs now s L = none ↔
      ∀ sp ∈ L, parseInLocation sp.toks s = none := by
  induction L with
  | nil => simp [tryCalSpecs]
  | cons sp rest ih =>
      unfold tryCalSpecs
      cases h : parseInLocation sp.toks s with
      | none => simp [h, ih]
      | some t => simp [h]

/-- `parseTime` fails exactly when the clock-time scan fails and every
calendar layout fails. -/
theorem parseTime_none_iff (now : Instant) (s : String) :
    parseTime now s = none ↔
      scanClock s = none ∧ ∀ sp ∈ specs, parseInLocation sp.toks s = none := by
  unfold parseTime
  cases h : parseHHMM now s with
  | some t =>
      have hsc : ¬scanClock s = none := fun hn => by
        rw [(parseHHMM_none_iff now s).mpr hn] at h
        exact Option.noConfusion h
      simp [h, hsc]
  | none =>
      rw [parseHHMM_none_iff] at h
      simp [h, calendarParse, tryCalSpecs_none_iff]

/-- C7: on the calendar-date path the completion is unconditional and
cumulative — a missing year becomes the current year (added to the
placeholder year 0), a missing month additionally becomes the current
month — with no roll-to-next-period: `"12-25"` parsed when the current
year is 2024 is 2024-12-25T00:00:00 regardless of where `now` falls in
that year, and `"25"` parsed in May 2024 gets both completions. -/
theorem claim7_unconditional_completion (now : Instant)
    (hy : yearOf now = 2024) :
    parseTime now "12-25" = some (goDate 2024 12 25 0 0 0) ∧
    (monthOf now = 5 → parseTime now "25" = some (goDate 2024 5 25 0 0 0)) := by
  constructor
  · rw [parseTime_of_fast_none ((parseHHMM_none_iff now "12-25").mpr (by decide))]
    have h1 : parseInLocation layoutFullHM "12-25" = none := by decide
    have h2 : parseInLocation layoutFullHMS "12-25" = none := by decide
    have h3 : parseInLocation layoutFullDate "12-25" = none := by decide
    have h4 : parseInLocation layoutMDHM "12-25" = none := by decide
    have h5 : parseInLocation layoutMDHMS "12-25" = none := by decide
    have h6 : parseInLocation layoutMD "12-25" =
        some (goDate 0 12 25 0 0 0) := by decide
    simp only [calendarParse, specs, tryCalSpecs, h1, h2, h3, h4, h5, h6,
      applyCompletion, noyear, nomonth]
    norm_num
    rw [hy]
    decide
  · intro hmo
    rw [parseTime_of_fast_none ((parseHHMM_none_iff now "25").mpr (by decide))]
    have h1 : parseInLocation layoutFullHM "25" = none := by decide
    have h2 : parseInLocation layoutFullHMS "25" = none := by decide
    have h3 : parseInLocation layoutFullDate "25" = none := by decide
    have h4 : parseInLocation layoutMDHM "25" = none := by decide
    have h5 : parseInLocation layoutMDHMS "25" = none := by decide
    have h6 : parseInLocation layoutMD "25" = none := by decide
    have h7 : parseInLocation layoutDHM "25" = none := by decide
    have h8 : parseInLocation layoutDHMS "25" = none := by decide
    have h9 : parseInLocation layoutD "25" =
        some (goDate 0 1 25 0 0 0) := by decide
    simp only [calendarParse, specs, tryCalSpecs, h1, h2, h3, h4, h5, h6,
      h7, h8, h9, applyCompletion, noyear, nomonth]
    norm_num
    rw [hy, hmo]
    decide

/-- Witness for C7: parsed against a `now` of 2024-05-10 03:04:05, both
completions land on the current year (and month). -/
theorem claim7_unconditional_completion_w :
    parseTime (goDate 2024 5 10 3 4 5) "12-25" =
      some (goDate 2024 12 25 0 0 0) ∧
    parseTime (goDate 2024 5 10 3 4 5) "25" =
      some (goDate 2024 5 25 0 0 0) :=
  ⟨(claim7_unconditional_completion (goDate 2024 5 10 3 4 5) (by decide)).1,
   (claim7_unconditional_completion (goDate 2024 5 10 3 4 5) (by decide)).2
      (by decide)⟩

/-- C8: the calendar patterns are tried in their listed order and the
first success wins: `"2024-03-01 09:30:15"` fails the seconds-less Full
layout (tried first, with leftover `":15"`) and is parsed by the
seconds-bearing Full layout, so the 15 seconds are preserved in the
result, independently of `now`. -/
theorem claim8_pattern_precedence (now : Instant) :
    parseInLocation layoutFullHM "2024-03-01 09:30:15" = none ∧
    parseTime now "2024-03-01 09:30:15" = some (goDate 2024 3 1 9 30 15) ∧
    secondOf (goDate 2024 3 1 9 30 15) = 15 := by
  have h1 : parseInLocation layoutFullHM "2024-03-01 09:30:15" = none := by
    decide
  have h2 : parseInLocation layoutFullHMS "2024-03-01 09:30:15" =
      some (goDate 2024 3 1 9 30 15) := by decide
  refine ⟨h1, ?_, by decide⟩
  rw [parseTime_of_fast_none
    ((parseHHMM_none_iff now "2024-03-01 09:30:15").mpr (by decide))]
  simp only [calendarParse, specs, tryCalSpecs, h1, h2,
    applyCompletion, noyear, nomonth, full]
  norm_num

/-- C9: parsing has a single failure mode — `parseTime` errors exactly
when the clock-time scan fails and every one of the nine calendar
layouts fails; whenever any path matches, a timestamp is returned. In
particular `"not-a-time"` is unparseable. -/
theorem claim9_single_error_mode (now : Instant) (s : String) :
    (parseTime now s = none ↔
      scanClock s = none ∧ ∀ sp ∈ specs, parseInLocation sp.toks s = none) ∧
    parseTime now "not-a-time" = none :=
  ⟨parseTime_none_iff now s,
   (parseTime_none_iff now "not-a-time").mpr ⟨by decide, by decide⟩⟩

/-- C10: the completions use Go's normalising `AddDate`, so a completed
date whose day does not exist in the resulting month overflows into the
following month instead of failing: `"31"` parsed in April 2025 (a
30-day month) gives 2025-05-01, and `"02-29"` parsed in the non-leap
year 2025 (the bare layout parses 02-29 against the placeholder leap
year 0) gives 2025-03-01. -/
theorem claim10_completion_overflows (now : Instant)
    (hy : yearOf now = 2025) (hmo : monthOf now = 4) :
    parseTime now "31" = some (goDate 2025 5 1 0 0 0) ∧
    parseTime now "02-29" = some (goDate 2025 3 1 0 0 0) := by
  constructor
  · rw [parseTime_of_fast_none ((parseHHMM_none_iff now "31").mpr (by decide))]
    have h1 : parseInLocation layoutFullHM "31" = none := by decide
    have h2 : parseInLocation layoutFullHMS "31" = none := by decide
    have h3 : parseInLocation layoutFullDate "31" = none := by decide
    have h4 : parseInLocation layoutMDHM "31" = none := by decide
    have h5 : parseInLocation layoutMDHMS "31" = none := by decide
    have h6 : parseInLocation layoutMD "31" = none := by decide
    have h7 : parseInLocation layoutDHM "31" = none := by decide
    have h8 : parseInLocation layoutDHMS "31" = none := by decide
    have h9 : parseInLocation layoutD "31" =
        some (goDate 0 1 31 0 0 0) := by decide
    simp only [calendarParse, specs, tryCalSpecs, h1, h2, h3, h4, h5, h6,
      h7, h8, h9, applyCompletion, noyear, nomonth]
    norm_num
    rw [hy, hmo]
    decide
  · rw [parseTime_of_fast_none ((parseHHMM_none_iff now "02-29").mpr (by decide))]
    have h1 : parseInLocation layoutFullHM "02-29" = none := by decide
    have h2 : parseInLocation layoutFullHMS "02-29" = none := by decide
    have h3 : parseInLocation layoutFullDate "02-29" = none := by decide
    have h4 : parseInLocation layoutMDHM "02-29" = none := by decide
    have h5 : parseInLocation layoutMDHMS "02-29" = none := by decide
    have h6 : parseInLocation layoutMD "02-29" =
        some (goDate 0 2 29 0 0 0) := by decide
    simp only [calendarParse, specs, tryCalSpecs, h1, h2, h3, h4, h5, h6,
      applyCompletion, noyear, nomonth]
    norm_num
    rw [hy]
    decide

/-- Witness for C10: against a `now` of 2025-04-10, `"31"` overflows to
May 1st and `"02-29"` overflows to March 1st. -/
theorem claim10_completion_overflows_w :
    parseTime (goDate 2025 4 10 0 0 0) "31" = some (goDate 2025 5 1 0 0 0) ∧
    parseTime (goDate 2025 4 10 0 0 0) "02-29" =
      some (goDate 2025 3 1 0 0 0) :=
  claim10_completion_overflows (goDate 2025 4 10 0 0 0) (by decide) (by decide)

end Waituntil
